import Mathlib

/-!
Shallow embedding of the `argon2id` Go package (src/argon2id.go).

Go strings and byte slices are modelled as `List Nat` (each element a byte
value < 256; ASCII text maps one byte per character).  The external
derivation primitive `argon2.IDKey` is an injected parameter
`derive : List Nat → List Nat → Nat → Nat → Nat → Nat → List Nat`
(password, salt, time, memory, threads, keyLen), as the spec treats it as an
opaque external collaborator.  `fmt.Sscanf`, `strings.Split`,
`base64.RawURLEncoding` and `subtle.ConstantTimeCompare` are modelled
byte-for-byte from their Go semantics.
-/

namespace Argon2id

/-- ASCII text as a byte list (all our literals are 7-bit ASCII). -/
def ascii (s : String) : List Nat := s.data.map Char.toNat

/-- The error values declared at the top of src/argon2id.go, plus the two
dynamic error families that `VerifyPassword` propagates: `fmt.Sscanf`
failures (`parseErr`) and `base64` `CorruptInputError` (`decodeErr`). -/
inductive Argon2Error where
  | passwordRequired
  | saltRequired
  | argon2KeyRequired
  | invalidKeyLength
  | argonVersionMismatch
  | hashNotEqualPassword
  | parseErr
  | decodeErr
deriving DecidableEq, Repr

/-- Model of `argon2.Version` from golang.org/x/crypto/argon2 (= 0x13). -/
def argon2Version : Nat := 19

/-! Model of base64.RawURLEncoding -/

/-- The URL-safe base64 alphabet: sextet index to ASCII byte. -/
def b64Char (i : Nat) : Nat :=
  if i < 26 then 65 + i
  else if i < 52 then 97 + (i - 26)
  else if i < 62 then 48 + (i - 52)
  else if i = 62 then 45
  else 95

/-- Inverse alphabet lookup (`Encoding.decodeMap`); `none` for bytes outside
the URL-safe alphabet. -/
def b64Index (c : Nat) : Option Nat :=
  if 65 ≤ c ∧ c ≤ 90 then some (c - 65)
  else if 97 ≤ c ∧ c ≤ 122 then some (26 + (c - 97))
  else if 48 ≤ c ∧ c ≤ 57 then some (52 + (c - 48))
  else if c = 45 then some 62
  else if c = 95 then some 63
  else none

/-- Unpadded base64 encoding: groups of three bytes become four alphabet
bytes; a final group of two or one byte becomes three or two bytes. -/
def encodeGroups : List Nat → List Nat
  | b0 :: b1 :: b2 :: rest =>
      b64Char (b0 / 4) :: b64Char (b0 % 4 * 16 + b1 / 16) ::
      b64Char (b1 % 16 * 4 + b2 / 64) :: b64Char (b2 % 64) :: encodeGroups rest
  | [b0, b1] => [b64Char (b0 / 4), b64Char (b0 % 4 * 16 + b1 / 16), b64Char (b1 % 16 * 4)]
  | [b0] => [b64Char (b0 / 4), b64Char (b0 % 4 * 16)]
  | [] => []

/-- Model of `EncodeToBase64String` from src/argon2id.go:
`base64.RawURLEncoding.EncodeToString`. -/
def EncodeToBase64String (b : List Nat) : List Nat := encodeGroups b

/-- Unpadded base64 decoding of a newline-free input, quantum by quantum:
four alphabet bytes give three bytes; a trailing group of three or two
gives two or one (unused low bits ignored, as Go's non-strict decoder
does); a trailing single byte is a `CorruptInputError` (`none`). -/
def decodeGroups : List Nat → Option (List Nat)
  | [] => some []
  | [_] => none
  | [c0, c1] =>
      match b64Index c0, b64Index c1 with
      | some i0, some i1 => some [i0 * 4 + i1 / 16]
      | _, _ => none
  | [c0, c1, c2] =>
      match b64Index c0, b64Index c1, b64Index c2 with
      | some i0, some i1, some i2 => some [i0 * 4 + i1 / 16, i1 % 16 * 16 + i2 / 4]
      | _, _, _ => none
  | c0 :: c1 :: c2 :: c3 :: rest =>
      match b64Index c0, b64Index c1, b64Index c2, b64Index c3, decodeGroups rest with
      | some i0, some i1, some i2, some i3, some tail =>
          some ((i0 * 4 + i1 / 16) :: (i1 % 16 * 16 + i2 / 4) :: (i2 % 4 * 64 + i3) :: tail)
      | _, _, _, _, _ => none

/-- Model of `DecodeBase64String` from src/argon2id.go:
`base64.RawURLEncoding.DecodeString`.  Go's decoder skips `\r` and `\n`
anywhere in the input before assembling quanta (`decodeQuantum`), so the
model filters them out first. -/
def DecodeBase64String (s : List Nat) : Option (List Nat) :=
  decodeGroups (s.filter fun c => c ≠ 10 ∧ c ≠ 13)

/-! Model of strings.Split on "$" -/

/-- Model of `strings.Split(key, "$")` ('$' is byte 36); always returns at least one
segment. -/
def splitOnDollar : List Nat → List (List Nat)
  | [] => [[]]
  | c :: rest =>
      if c = 36 then [] :: splitOnDollar rest
      else
        match splitOnDollar rest with
        | [] => [[c]]
        | s :: ss => (c :: s) :: ss

/-! Decimal formatting (fmt.Sprintf "%d" on unsigned values) -/

/-- Fuel-driven decimal digit accumulator (fuel `n + 1` always suffices). -/
def toDecimalAux : Nat → Nat → List Nat → List Nat
  | 0, _, acc => acc
  | fuel + 1, n, acc =>
      if n < 10 then (48 + n) :: acc
      else toDecimalAux fuel (n / 10) ((48 + n % 10) :: acc)

/-- ASCII decimal representation of a natural number, as printed by
`fmt.Sprintf` with the `%d` verb. -/
def toDecimal (n : Nat) : List Nat := toDecimalAux (n + 1) n []

/-- Numeric value of a run of ASCII digits. -/
def valOfDigits (ds : List Nat) : Nat := ds.foldl (fun a d => a * 10 + (d - 48)) 0

/-! Model of fmt.Sscanf for the formats "v=%d" and "m=%d,t=%d,p=%d" -/

/-- ASCII decimal digit test. -/
def isDigit (c : Nat) : Bool := 48 ≤ c && c ≤ 57

/-- Model of `ss.SkipSpace` for `Sscanf` (newlines are not spaces): skips space, tab,
vertical tab, form feed and lone `\r`; fails (`none`) on `\n` or on `\r`
directly followed by `\n`. -/
def skipSpace : List Nat → Option (List Nat)
  | [] => some []
  | c :: rest =>
      if c = 10 then none
      else if c = 13 then
        match rest with
        | 10 :: _ => none
        | _ => skipSpace rest
      else if c = 9 ∨ c = 11 ∨ c = 12 ∨ c = 32 then skipSpace rest
      else some (c :: rest)

/-- Model of `ss.scanUint` for the `%d` verb into an unsigned integer of `bits` bits:
no sign accepted, at least one decimal digit required, overflow is an
error.  Returns the value and the unconsumed input. -/
def scanUintBits (bits : Nat) (s : List Nat) : Option (Nat × List Nat) :=
  let ds := s.takeWhile isDigit
  if ds = [] then none
  else
    let v := valOfDigits ds
    if v < 2 ^ bits then some (v, s.dropWhile isDigit) else none

/-- Model of `ss.scanInt` for the `%d` verb into a (64-bit) `int`: one optional sign,
then at least one decimal digit; overflow outside `[-2^63, 2^63 - 1]` is an
error. -/
def scanInt64 (s : List Nat) : Option (Int × List Nat) :=
  let signed : Bool × List Nat :=
    match s with
    | 45 :: r => (true, r)
    | 43 :: r => (false, r)
    | _ => (false, s)
  let ds := signed.2.takeWhile isDigit
  if ds = [] then none
  else
    let v := valOfDigits ds
    let i : Int := if signed.1 then -(v : Int) else (v : Int)
    if -(2 ^ 63) ≤ i ∧ i < 2 ^ 63 then some (i, signed.2.dropWhile isDigit) else none

/-- Match one literal format byte against the input. -/
def matchByte (c : Nat) : List Nat → Option (List Nat)
  | [] => none
  | x :: rest => if x = c then some rest else none

/-- Model of `fmt.Sscanf(seg, "v=%d", &version)`: literal `v`, literal `=`, then a
space-skipping `%d` into an `int`.  Input left over once the format is
exhausted is ignored (Sscanf semantics). -/
def scanVersion (s : List Nat) : Option Int :=
  (matchByte 118 s).bind fun s1 =>
  (matchByte 61 s1).bind fun s2 =>
  (skipSpace s2).bind fun s3 =>
  (scanInt64 s3).map Prod.fst

/-- Model of `fmt.Sscanf(seg, "m=%d,t=%d,p=%d", &p.Memory, &p.Time, &p.Threads)`:
three unsigned `%d` verbs (uint32, uint32, uint8) separated by the literal
bytes of the format; trailing unconsumed input is ignored. -/
def scanParams (s : List Nat) : Option (Nat × Nat × Nat) :=
  (matchByte 109 s).bind fun s1 =>
  (matchByte 61 s1).bind fun s2 =>
  (skipSpace s2).bind fun s3 =>
  (scanUintBits 32 s3).bind fun (memory, s4) =>
  (matchByte 44 s4).bind fun s5 =>
  (matchByte 116 s5).bind fun s6 =>
  (matchByte 61 s6).bind fun s7 =>
  (skipSpace s7).bind fun s8 =>
  (scanUintBits 32 s8).bind fun (time, s9) =>
  (matchByte 44 s9).bind fun s10 =>
  (matchByte 112 s10).bind fun s11 =>
  (matchByte 61 s11).bind fun s12 =>
  (skipSpace s12).bind fun s13 =>
  (scanUintBits 8 s13).map fun (threads, _) => (memory, time, threads)

/-! Model of subtle.ConstantTimeCompare -/

/-- Model of `subtle.ConstantTimeCompare`: 0 if the lengths differ, otherwise 1
exactly when the byte-wise OR of XORs over the whole length is zero. -/
def constantTimeCompare (x y : List Nat) : Nat :=
  if x.length ≠ y.length then 0
  else if ((x.zip y).foldl (fun acc p => acc ||| (p.1 ^^^ p.2)) 0) = 0 then 1 else 0

/-! The credential service -/

/-- The `Options` struct (Time, Memory uint32; Threads uint8; KeyLen
uint32), fields as `Nat` with the Go-type bounds stated as hypotheses where
they matter. -/
structure Options where
  time : Nat
  memory : Nat
  threads : Nat
  keyLen : Nat

/-- The type of the injected derivation primitive `argon2.IDKey`:
password, salt, time, memory, threads, keyLen ↦ raw hash bytes. -/
def DeriveFn : Type := List Nat → List Nat → Nat → Nat → Nat → Nat → List Nat

/-- The `fmt.Sprintf("$argon2id$v=%d$m=%d,t=%d,p=%d$%s$%s", argon2.Version,
options.Memory, options.Time, options.Threads, b64Salt, b64Hash)` call of
`HashPassword`, as a byte list. -/
def credentialFormat (memory time threads : Nat) (b64Salt b64Hash : List Nat) : List Nat :=
  36 :: ascii ("argon2id") ++ 36 :: ascii ("v=") ++ toDecimal argon2Version ++
  36 :: ascii ("m=") ++ toDecimal memory ++ 44 :: ascii ("t=") ++ toDecimal time ++
  44 :: ascii ("p=") ++ toDecimal threads ++ 36 :: b64Salt ++ 36 :: b64Hash

/-- Model of `HashPassword` from src/argon2id.go, with `argon2.IDKey` injected as
`derive`.  Formats
`$argon2id$v=%d$m=%d,t=%d,p=%d$<b64 salt>$<b64 hash>` with the version
stamp `argon2.Version` and the numeric fields in the order memory, time,
threads, exactly as the `fmt.Sprintf` call does. -/
def HashPassword (derive : DeriveFn) (password salt : List Nat) (options : Options) :
    Except Argon2Error (List Nat) :=
  if password = [] then .error .passwordRequired
  else if salt = [] then .error .saltRequired
  else
    let hash := derive password salt options.time options.memory options.threads options.keyLen
    let b64Salt := EncodeToBase64String salt
    let b64Hash := EncodeToBase64String hash
    .ok (credentialFormat options.memory options.time options.threads b64Salt b64Hash)

/-- Model of `VerifyPassword` from src/argon2id.go, with `argon2.IDKey` injected as
`derive`.  `none` is the `nil` (success) return; `some e` the error
return.  `p.KeyLen` is taken as the length of the decoded hash. -/
def VerifyPassword (derive : DeriveFn) (password key : List Nat) : Option Argon2Error :=
  if password = [] then some .passwordRequired
  else if key = [] then some .argon2KeyRequired
  else
    let decodedKey := splitOnDollar key
    if decodedKey.length ≠ 6 then some .invalidKeyLength
    else
      match scanVersion (decodedKey.getD 2 []) with
      | none => some .parseErr
      | some version =>
        if version ≠ (argon2Version : Int) then some .argonVersionMismatch
        else
          match scanParams (decodedKey.getD 3 []) with
          | none => some .parseErr
          | some (memory, time, threads) =>
            match DecodeBase64String (decodedKey.getD 4 []) with
            | none => some .decodeErr
            | some salt =>
              match DecodeBase64String (decodedKey.getD 5 []) with
              | none => some .decodeErr
              | some hash =>
                let keyLen := hash.length
                let control := derive password salt time memory threads keyLen
                if constantTimeCompare hash control = 1 then none
                else some .hashNotEqualPassword

/-- A simple concrete derivation primitive satisfying the call contract
(deterministic, returns exactly `keyLen` bytes), used to instantiate the
parameterized theorems at concrete inputs. -/
def zeroDerive : DeriveFn := fun _ _ _ _ _ keyLen => List.replicate keyLen 0

/-- The version segment `v=<argon2.Version>` as a byte list. -/
def versionSegment : List Nat := ascii ("v=") ++ toDecimal argon2Version

/-- The parameter segment `m=<M>,t=<T>,p=<P>` as a byte list. -/
def paramSegment (M T P : Nat) : List Nat :=
  ascii ("m=") ++ toDecimal M ++ 44 :: ascii ("t=") ++ toDecimal T ++ 44 ::
    ascii ("p=") ++ toDecimal P

/-- Modelled from the spec: the derivation primitive `argon2.IDKey` lives in
golang.org/x/crypto/argon2, outside this repository, so its input/output
behaviour is pinned only at the spec's documented test vector — password
"password", salt "salt", time 1, memory 65536, threads 4, keyLen 32 yield
the 32 bytes whose unpadded URL-safe base64 encoding is
"OWwmnKFemKE2ILjM60j1so1oRXDFJYqvOiYlZTByvuU".  Away from that point this
model returns `keyLen` zero bytes, which still satisfies the primitive's
call contract (deterministic, exactly `keyLen` output bytes). -/
def argon2IDKeySpec : DeriveFn := fun password salt time memory threads keyLen =>
  if password = ascii ("password") ∧ salt = ascii ("salt") ∧ time = 1 ∧ memory = 65536 ∧
      threads = 4 ∧ keyLen = 32 then
    [57, 108, 38, 156, 161, 94, 152, 161, 54, 32, 184, 204, 235, 72, 245, 178, 141, 104,
     69, 112, 197, 37, 138, 175, 58, 38, 37, 101, 48, 114, 190, 229]
  else List.replicate keyLen 0

/-! Lemmas about the base64 codec -/

theorem b64Index_b64Char : ∀ i, i < 64 → b64Index (b64Char i) = some i := by decide

theorem b64Char_notSpecial : ∀ i, i < 64 → b64Char i ≠ 36 ∧ b64Char i ≠ 10 ∧ b64Char i ≠ 13 := by
  decide

theorem encodeGroups_chars (b : List Nat) (hb : ∀ x ∈ b, x < 256) :
    ∀ c ∈ encodeGroups b, c ≠ 36 ∧ c ≠ 10 ∧ c ≠ 13 := by
  induction b using encodeGroups.induct with
  | case1 b0 b1 b2 rest ih =>
    have h0 : b0 < 256 := hb _ (by simp)
    have h1 : b1 < 256 := hb _ (by simp)
    have h2 : b2 < 256 := hb _ (by simp)
    intro c hc
    simp only [encodeGroups, List.mem_cons] at hc
    rcases hc with h | h | h | h | h
    · exact h ▸ b64Char_notSpecial _ (by omega)
    · exact h ▸ b64Char_notSpecial _ (by omega)
    · exact h ▸ b64Char_notSpecial _ (by omega)
    · exact h ▸ b64Char_notSpecial _ (by omega)
    · exact ih (fun x hx => hb x (by simp [hx])) c h
  | case2 b0 b1 =>
    have h0 : b0 < 256 := hb _ (by simp)
    have h1 : b1 < 256 := hb _ (by simp)
    intro c hc
    simp only [encodeGroups, List.mem_cons] at hc
    rcases hc with h | h | h | h
    · exact h ▸ b64Char_notSpecial _ (by omega)
    · exact h ▸ b64Char_notSpecial _ (by omega)
    · exact h ▸ b64Char_notSpecial _ (by omega)
    · simp at h
  | case3 b0 =>
    have h0 : b0 < 256 := hb _ (by simp)
    intro c hc
    simp only [encodeGroups, List.mem_cons] at hc
    rcases hc with h | h | h
    · exact h ▸ b64Char_notSpecial _ (by omega)
    · exact h ▸ b64Char_notSpecial _ (by omega)
    · simp at h
  | case4 => intro c hc; simp [encodeGroups] at hc

theorem filter_no_crlf (l : List Nat) (h : ∀ c ∈ l, c ≠ 10 ∧ c ≠ 13) :
    (l.filter fun c => c ≠ 10 ∧ c ≠ 13) = l := by
  induction l with
  | nil => rfl
  | cons c t ih =>
    have hc := h c (by simp)
    simp only [List.filter_cons]
    rw [if_pos (by simpa using hc), ih (fun x hx => h x (by simp [hx]))]

theorem decodeGroups_quad (b0 b1 b2 : Nat) (h0 : b0 < 256) (h1 : b1 < 256) (h2 : b2 < 256)
    (rest : List Nat) :
    decodeGroups (b64Char (b0 / 4) :: b64Char (b0 % 4 * 16 + b1 / 16) ::
      b64Char (b1 % 16 * 4 + b2 / 64) :: b64Char (b2 % 64) :: rest) =
    (decodeGroups rest).map fun t => b0 :: b1 :: b2 :: t := by
  have e0 := b64Index_b64Char (b0 / 4) (by omega)
  have e1 := b64Index_b64Char (b0 % 4 * 16 + b1 / 16) (by omega)
  have e2 := b64Index_b64Char (b1 % 16 * 4 + b2 / 64) (by omega)
  have e3 := b64Index_b64Char (b2 % 64) (by omega)
  simp only [decodeGroups, e0, e1, e2, e3]
  cases hrest : decodeGroups rest with
  | none => rfl
  | some t =>
    simp only [Option.map_some']
    have g0 : b0 / 4 * 4 + (b0 % 4 * 16 + b1 / 16) / 16 = b0 := by omega
    have g1 : (b0 % 4 * 16 + b1 / 16) % 16 * 16 + (b1 % 16 * 4 + b2 / 64) / 4 = b1 := by omega
    have g2 : (b1 % 16 * 4 + b2 / 64) % 4 * 64 + b2 % 64 = b2 := by omega
    rw [g0, g1, g2]

theorem decodeGroups_encodeGroups (b : List Nat) (hb : ∀ x ∈ b, x < 256) :
    decodeGroups (encodeGroups b) = some b := by
  induction b using encodeGroups.induct with
  | case1 b0 b1 b2 rest ih =>
    have h0 : b0 < 256 := hb _ (by simp)
    have h1 : b1 < 256 := hb _ (by simp)
    have h2 : b2 < 256 := hb _ (by simp)
    rw [encodeGroups, decodeGroups_quad b0 b1 b2 h0 h1 h2,
      ih (fun x hx => hb x (by simp [hx]))]
    rfl
  | case2 b0 b1 =>
    have h0 : b0 < 256 := hb _ (by simp)
    have h1 : b1 < 256 := hb _ (by simp)
    have e0 := b64Index_b64Char (b0 / 4) (by omega)
    have e1 := b64Index_b64Char (b0 % 4 * 16 + b1 / 16) (by omega)
    have e2 := b64Index_b64Char (b1 % 16 * 4) (by omega)
    simp only [encodeGroups, decodeGroups, e0, e1, e2]
    have g0 : b0 / 4 * 4 + (b0 % 4 * 16 + b1 / 16) / 16 = b0 := by omega
    have g1 : (b0 % 4 * 16 + b1 / 16) % 16 * 16 + b1 % 16 * 4 / 4 = b1 := by omega
    rw [g0, g1]
  | case3 b0 =>
    have h0 : b0 < 256 := hb _ (by simp)
    have e0 := b64Index_b64Char (b0 / 4) (by omega)
    have e1 := b64Index_b64Char (b0 % 4 * 16) (by omega)
    simp only [encodeGroups, decodeGroups, e0, e1]
    have g0 : b0 / 4 * 4 + b0 % 4 * 16 / 16 = b0 := by omega
    rw [g0]
  | case4 => rfl

/-- The codec round-trip at the `DecodeBase64String` level: the encoder never
emits CR or LF, so Go's newline skipping is the identity on its output. -/
theorem decode_encode (b : List Nat) (hb : ∀ x ∈ b, x < 256) :
    DecodeBase64String (EncodeToBase64String b) = some b := by
  unfold DecodeBase64String EncodeToBase64String
  rw [filter_no_crlf _ (fun c hc => (encodeGroups_chars b hb c hc).2),
    decodeGroups_encodeGroups b hb]

/-- Decoding an encoded byte string with one extra byte appended: if the
encoded length was a multiple of four (input length divisible by 3) the
trailing lone byte is a decode error; otherwise the extra byte either is
outside the alphabet (error) or extends the decoded output by one byte. -/
theorem decode_enc_snoc (b : List Nat) (c : Nat) (hb : ∀ x ∈ b, x < 256) :
    decodeGroups (encodeGroups b ++ [c]) =
      if b.length % 3 = 0 then none
      else (b64Index c).map fun ic => b ++ [if b.length % 3 = 1 then ic / 4 else ic] := by
  induction b using encodeGroups.induct with
  | case1 b0 b1 b2 rest ih =>
    have h0 : b0 < 256 := hb _ (by simp)
    have h1 : b1 < 256 := hb _ (by simp)
    have h2 : b2 < 256 := hb _ (by simp)
    rw [encodeGroups, List.cons_append, List.cons_append, List.cons_append, List.cons_append,
      decodeGroups_quad b0 b1 b2 h0 h1 h2, ih (fun x hx => hb x (by simp [hx]))]
    have hmod : (b0 :: b1 :: b2 :: rest).length % 3 = rest.length % 3 := by
      simp [List.length_cons]; omega
    rw [hmod]
    by_cases hr : rest.length % 3 = 0
    · simp [hr]
    · simp only [if_neg hr]
      cases b64Index c with
      | none => rfl
      | some ic => simp
  | case2 b0 b1 =>
    have h0 : b0 < 256 := hb _ (by simp)
    have h1 : b1 < 256 := hb _ (by simp)
    have e0 := b64Index_b64Char (b0 / 4) (by omega)
    have e1 := b64Index_b64Char (b0 % 4 * 16 + b1 / 16) (by omega)
    have e2 := b64Index_b64Char (b1 % 16 * 4) (by omega)
    simp only [encodeGroups, List.cons_append, List.nil_append, decodeGroups, e0, e1, e2]
    cases hc : b64Index c with
    | none => rfl
    | some ic =>
      simp only [Option.map_some']
      have g0 : b0 / 4 * 4 + (b0 % 4 * 16 + b1 / 16) / 16 = b0 := by omega
      have g1 : (b0 % 4 * 16 + b1 / 16) % 16 * 16 + b1 % 16 * 4 / 4 = b1 := by omega
      have g2 : b1 % 16 * 4 % 4 * 64 + ic = ic := by omega
      rw [g0, g1, g2]
      rfl
  | case3 b0 =>
    have h0 : b0 < 256 := hb _ (by simp)
    have e0 := b64Index_b64Char (b0 / 4) (by omega)
    have e1 := b64Index_b64Char (b0 % 4 * 16) (by omega)
    simp only [encodeGroups, List.cons_append, List.nil_append, decodeGroups, e0, e1]
    cases hc : b64Index c with
    | none => rfl
    | some ic =>
      simp only [Option.map_some']
      have g0 : b0 / 4 * 4 + b0 % 4 * 16 / 16 = b0 := by omega
      have g1 : b0 % 4 * 16 % 16 * 16 + ic / 4 = ic / 4 := by omega
      rw [g0, g1]
      rfl
  | case4 => rfl

theorem b64Index_some_ne (c ic : Nat) (h : b64Index c = some ic) :
    c ≠ 36 ∧ c ≠ 10 ∧ c ≠ 13 := by
  refine ⟨?_, ?_, ?_⟩ <;> rintro rfl <;> simp [b64Index] at h

/-! Lemmas about splitting on the dollar byte -/

theorem splitOnDollar_no36 (a : List Nat) (h : 36 ∉ a) : splitOnDollar a = [a] := by
  induction a with
  | nil => rfl
  | cons c rest ih =>
    have hc : c ≠ 36 := fun e => h (by simp [e])
    have hr := ih (fun hm => h (by simp [hm]))
    simp [splitOnDollar, hc, hr]

theorem splitOnDollar_append (a : List Nat) (h : 36 ∉ a) (rest : List Nat) :
    splitOnDollar (a ++ 36 :: rest) = a :: splitOnDollar rest := by
  induction a with
  | nil => simp [splitOnDollar]
  | cons c t ih =>
    have hc : c ≠ 36 := fun e => h (by simp [e])
    have hr := ih (fun hm => h (by simp [hm]))
    simp [splitOnDollar, hc, hr]

theorem splitOnDollar_cred (A V Pm S rest : List Nat)
    (hA : 36 ∉ A) (hV : 36 ∉ V) (hPm : 36 ∉ Pm) (hS : 36 ∉ S) :
    splitOnDollar (36 :: (A ++ 36 :: (V ++ 36 :: (Pm ++ 36 :: (S ++ 36 :: rest))))) =
      [] :: A :: V :: Pm :: S :: splitOnDollar rest := by
  have h36 : splitOnDollar (36 :: (A ++ 36 :: (V ++ 36 :: (Pm ++ 36 :: (S ++ 36 :: rest))))) =
      [] :: splitOnDollar (A ++ 36 :: (V ++ 36 :: (Pm ++ 36 :: (S ++ 36 :: rest)))) := by
    simp [splitOnDollar]
  rw [h36, splitOnDollar_append A hA, splitOnDollar_append V hV, splitOnDollar_append Pm hPm,
    splitOnDollar_append S hS]

/-! Lemmas about decimal formatting and scanning -/

theorem toDecimalAux_acc (fuel : Nat) :
    ∀ n acc, toDecimalAux fuel n acc = toDecimalAux fuel n [] ++ acc := by
  induction fuel with
  | zero => intro n acc; simp [toDecimalAux]
  | succ fuel ih =>
    intro n acc
    by_cases h : n < 10
    · simp [toDecimalAux, h]
    · simp only [toDecimalAux, if_neg h]
      rw [ih (n / 10) ((48 + n % 10) :: acc), ih (n / 10) [48 + n % 10]]
      simp

theorem valOfDigits_snoc (xs : List Nat) (d : Nat) :
    valOfDigits (xs ++ [d]) = valOfDigits xs * 10 + (d - 48) := by
  simp [valOfDigits, List.foldl_append]

theorem valOfDigits_toDecimalAux :
    ∀ fuel n, n < fuel → valOfDigits (toDecimalAux fuel n []) = n := by
  intro fuel
  induction fuel with
  | zero => intro n hn; omega
  | succ fuel ih =>
    intro n hn
    by_cases h : n < 10
    · simp [toDecimalAux, h, valOfDigits]
    · have hlt : n / 10 < fuel := by omega
      simp only [toDecimalAux, if_neg h]
      rw [toDecimalAux_acc, valOfDigits_snoc, ih _ hlt]
      omega

theorem valOfDigits_toDecimal (n : Nat) : valOfDigits (toDecimal n) = n :=
  valOfDigits_toDecimalAux (n + 1) n (Nat.lt_succ_self n)

theorem toDecimalAux_digits :
    ∀ fuel n acc, (∀ c ∈ acc, 48 ≤ c ∧ c ≤ 57) →
      ∀ c ∈ toDecimalAux fuel n acc, 48 ≤ c ∧ c ≤ 57 := by
  intro fuel
  induction fuel with
  | zero => intro n acc hacc; simpa [toDecimalAux] using hacc
  | succ fuel ih =>
    intro n acc hacc c hc
    by_cases h : n < 10
    · simp only [toDecimalAux, if_pos h, List.mem_cons] at hc
      rcases hc with h' | h'
      · omega
      · exact hacc c h'
    · simp only [toDecimalAux, if_neg h] at hc
      refine ih (n / 10) ((48 + n % 10) :: acc) ?_ c hc
      intro x hx
      rcases List.mem_cons.mp hx with h' | h'
      · omega
      · exact hacc x h'

theorem toDecimal_digits (n : Nat) : ∀ c ∈ toDecimal n, 48 ≤ c ∧ c ≤ 57 :=
  toDecimalAux_digits (n + 1) n [] (by simp)

theorem toDecimal_ne_nil (n : Nat) : toDecimal n ≠ [] := by
  unfold toDecimal
  by_cases h : n < 10
  · simp [toDecimalAux, h]
  · simp only [toDecimalAux, if_neg h]
    rw [toDecimalAux_acc]
    simp

theorem isDigit_of_range (c : Nat) (h : 48 ≤ c ∧ c ≤ 57) : isDigit c = true := by
  simp only [isDigit, Bool.and_eq_true, decide_eq_true_eq]
  omega

theorem takeWhile_digits_append (ds rest : List Nat) (h : ∀ c ∈ ds, isDigit c = true)
    (hrest : ∀ r, rest.head? = some r → isDigit r = false) :
    (ds ++ rest).takeWhile isDigit = ds ∧ (ds ++ rest).dropWhile isDigit = rest := by
  induction ds with
  | nil =>
    cases rest with
    | nil => simp
    | cons r t =>
      have hr : isDigit r = false := hrest r rfl
      simp [List.takeWhile, List.dropWhile, hr]
  | cons d t ih =>
    have hd : isDigit d = true := h d (by simp)
    obtain ⟨h1, h2⟩ := ih (fun c hc => h c (by simp [hc]))
    simp [List.takeWhile, List.dropWhile, hd, h1, h2]

theorem scanUintBits_spec (bits n : Nat) (rest : List Nat) (hn : n < 2 ^ bits)
    (hrest : ∀ r, rest.head? = some r → isDigit r = false) :
    scanUintBits bits (toDecimal n ++ rest) = some (n, rest) := by
  obtain ⟨htake, hdrop⟩ := takeWhile_digits_append (toDecimal n) rest
    (fun c hc => isDigit_of_range c (toDecimal_digits n c hc)) hrest
  simp only [scanUintBits, htake, hdrop]
  rw [if_neg (toDecimal_ne_nil n), valOfDigits_toDecimal, if_pos hn]

theorem scanUintBits_nil (bits n : Nat) (hn : n < 2 ^ bits) :
    scanUintBits bits (toDecimal n) = some (n, []) := by
  have := scanUintBits_spec bits n [] hn (by intro r hr; simp at hr)
  simpa using this

theorem skipSpace_digit_head (c : Nat) (rest : List Nat) (h : isDigit c = true) :
    skipSpace (c :: rest) = some (c :: rest) := by
  have hc : 48 ≤ c ∧ c ≤ 57 := by
    simp only [isDigit, Bool.and_eq_true, decide_eq_true_eq] at h
    exact h
  have h10 : ¬ c = 10 := by omega
  have h13 : ¬ c = 13 := by omega
  have hsp : ¬ (c = 9 ∨ c = 11 ∨ c = 12 ∨ c = 32) := by omega
  simp [skipSpace, h10, h13, hsp]

theorem skipSpace_toDecimal (n : Nat) (rest : List Nat) :
    skipSpace (toDecimal n ++ rest) = some (toDecimal n ++ rest) := by
  obtain ⟨d, t, hd⟩ := List.exists_cons_of_ne_nil (toDecimal_ne_nil n)
  have hdig : isDigit d = true :=
    isDigit_of_range d (toDecimal_digits n d (by rw [hd]; simp))
  rw [hd, List.cons_append, skipSpace_digit_head d (t ++ rest) hdig]

theorem scanParams_spec (M T P : Nat) (hM : M < 2 ^ 32) (hT : T < 2 ^ 32) (hP : P < 2 ^ 8) :
    scanParams (109 :: 61 :: (toDecimal M ++
      44 :: 116 :: 61 :: (toDecimal T ++ 44 :: 112 :: 61 :: toDecimal P))) = some (M, T, P) := by
  have hM' := scanUintBits_spec 32 M
    (44 :: 116 :: 61 :: (toDecimal T ++ 44 :: 112 :: 61 :: toDecimal P)) hM
    (by intro r hr; simp at hr; subst hr; rfl)
  have hT' := scanUintBits_spec 32 T (44 :: 112 :: 61 :: toDecimal P) hT
    (by intro r hr; simp at hr; subst hr; rfl)
  have hP' := scanUintBits_nil 8 P hP
  have hskP : skipSpace (toDecimal P) = some (toDecimal P) := by
    have := skipSpace_toDecimal P []
    simpa using this
  simp [scanParams, matchByte, skipSpace_toDecimal, hskP, hM', hT', hP']

/-! Lemmas about the constant-time comparison -/

theorem nat_or_eq_zero (a b : Nat) : a ||| b = 0 ↔ a = 0 ∧ b = 0 := by
  constructor
  · intro h
    constructor
    · refine Nat.zero_of_testBit_eq_false fun i => ?_
      have := congrArg (fun x => Nat.testBit x i) h
      simp [Nat.testBit_or] at this
      exact this.1
    · refine Nat.zero_of_testBit_eq_false fun i => ?_
      have := congrArg (fun x => Nat.testBit x i) h
      simp [Nat.testBit_or] at this
      exact this.2
  · rintro ⟨rfl, rfl⟩; rfl

theorem foldl_orXor_eq_zero (l : List (Nat × Nat)) :
    ∀ acc, (l.foldl (fun a p => a ||| (p.1 ^^^ p.2)) acc = 0 ↔
      acc = 0 ∧ ∀ p ∈ l, p.1 = p.2) := by
  induction l with
  | nil => intro acc; simp
  | cons p l ih =>
    intro acc
    simp only [List.foldl_cons, List.mem_cons]
    rw [ih]
    constructor
    · rintro ⟨h1, h2⟩
      have ha : acc = 0 ∧ p.1 ^^^ p.2 = 0 := (nat_or_eq_zero acc (p.1 ^^^ p.2)).mp h1
      exact ⟨ha.1, fun q hq => by
        rcases hq with h | h
        · subst h; exact Nat.xor_eq_zero.mp ha.2
        · exact h2 q h⟩
    · rintro ⟨h1, h2⟩
      subst h1
      have : p.1 ^^^ p.2 = 0 := Nat.xor_eq_zero.mpr (h2 p (Or.inl rfl))
      rw [this]
      exact ⟨rfl, fun q hq => h2 q (Or.inr hq)⟩

theorem zip_forall_eq (x : List Nat) :
    ∀ y : List Nat, x.length = y.length → ((∀ p ∈ x.zip y, p.1 = p.2) ↔ x = y) := by
  induction x with
  | nil =>
    intro y hy
    cases y with
    | nil => simp
    | cons _ _ => simp at hy
  | cons a t ih =>
    intro y hy
    cases y with
    | nil => simp at hy
    | cons b u =>
      have hlen : t.length = u.length := by simpa using hy
      simp only [List.zip_cons_cons, List.mem_cons]
      constructor
      · intro h
        have hab : a = b := h (a, b) (Or.inl rfl)
        have : t = u := (ih u hlen).mp (fun p hp => h p (Or.inr hp))
        rw [hab, this]
      · rintro h p hp
        injection h with h1 h2
        rcases hp with h' | h'
        · subst h'; exact h1
        · exact (ih u hlen).mpr h2 p h'

theorem constantTimeCompare_eq_one (x y : List Nat) :
    constantTimeCompare x y = 1 ↔ x = y := by
  unfold constantTimeCompare
  by_cases h : x.length = y.length
  · rw [if_neg (by simpa using h)]
    by_cases hz : ((x.zip y).foldl (fun acc p => acc ||| (p.1 ^^^ p.2)) 0) = 0
    · rw [if_pos hz]
      have := (foldl_orXor_eq_zero (x.zip y) 0).mp hz
      simp only [true_iff]
      exact (zip_forall_eq x y h).mp this.2
    · rw [if_neg hz]
      constructor
      · intro h0; exact absurd h0 (by simp)
      · intro hxy
        exfalso
        exact hz ((foldl_orXor_eq_zero (x.zip y) 0).mpr
          ⟨rfl, (zip_forall_eq x y h).mpr hxy⟩)
  · rw [if_pos (by simpa using h)]
    constructor
    · intro h0; exact absurd h0 (by simp)
    · intro hxy; exact absurd (show x.length = y.length by rw [hxy]) h

/-! Segment structure of the formatted credential -/

theorem not_mem_toDecimal_36 (n : Nat) : 36 ∉ toDecimal n := fun h => by
  have := toDecimal_digits n 36 h
  omega

theorem not_mem_versionSegment_36 : 36 ∉ versionSegment := by decide

theorem not_mem_paramSegment_36 (M T P : Nat) : 36 ∉ paramSegment M T P := by
  intro hm
  have h1 : 36 ∉ ascii ("m=") := by decide
  have h2 : 36 ∉ ascii ("t=") := by decide
  have h3 : 36 ∉ ascii ("p=") := by decide
  have h4 := not_mem_toDecimal_36 M
  have h5 := not_mem_toDecimal_36 T
  have h6 := not_mem_toDecimal_36 P
  have h7 : ¬ (36 : Nat) = 44 := by decide
  simp only [paramSegment, List.mem_append, List.mem_cons] at hm
  tauto

theorem splitOnDollar_credentialFormat (M T P : Nat) (S tail : List Nat) (hS : 36 ∉ S) :
    splitOnDollar (36 :: ascii ("argon2id") ++ 36 :: ascii ("v=") ++
        toDecimal argon2Version ++ 36 :: ascii ("m=") ++ toDecimal M ++ 44 :: ascii ("t=") ++
        toDecimal T ++ 44 :: ascii ("p=") ++ toDecimal P ++ 36 :: S ++ 36 :: tail) =
      [] :: ascii ("argon2id") :: versionSegment :: paramSegment M T P :: S ::
        splitOnDollar tail := by
  have hshape : 36 :: ascii ("argon2id") ++ 36 :: ascii ("v=") ++
      toDecimal argon2Version ++ 36 :: ascii ("m=") ++ toDecimal M ++ 44 :: ascii ("t=") ++
      toDecimal T ++ 44 :: ascii ("p=") ++ toDecimal P ++ 36 :: S ++ 36 :: tail =
      36 :: (ascii ("argon2id") ++ 36 :: (versionSegment ++ 36 :: (paramSegment M T P ++
        36 :: (S ++ 36 :: tail)))) := by
    simp [versionSegment, paramSegment, List.append_assoc]
  rw [hshape, splitOnDollar_cred _ _ _ _ _ (by decide) not_mem_versionSegment_36
    (not_mem_paramSegment_36 M T P) hS]

theorem scanVersionSegment : scanVersion versionSegment = some (argon2Version : Int) := by
  decide

theorem scanParamSegment (M T P : Nat) (hM : M < 2 ^ 32) (hT : T < 2 ^ 32) (hP : P < 2 ^ 8) :
    scanParams (paramSegment M T P) = some (M, T, P) := by
  have hshape : paramSegment M T P = 109 :: 61 :: (toDecimal M ++
      44 :: 116 :: 61 :: (toDecimal T ++ 44 :: 112 :: 61 :: toDecimal P)) := by
    simp [paramSegment, ascii, List.append_assoc]
  rw [hshape]
  exact scanParams_spec M T P hM hT hP

/-- Evaluation of `VerifyPassword` on a key whose six segments pass all the
parsing and decoding stages with the package's own version: the result is
the constant-time comparison of the decoded hash against the re-derived
one. -/
theorem verifyPassword_eq (derive : DeriveFn) (password key : List Nat) (M T P : Nat)
    (salt hash : List Nat)
    (hp : password ≠ []) (hk : key ≠ [])
    (h6 : (splitOnDollar key).length = 6)
    (hv : scanVersion ((splitOnDollar key).getD 2 []) = some (argon2Version : Int))
    (hps : scanParams ((splitOnDollar key).getD 3 []) = some (M, T, P))
    (hsalt : DecodeBase64String ((splitOnDollar key).getD 4 []) = some salt)
    (hhash : DecodeBase64String ((splitOnDollar key).getD 5 []) = some hash) :
    VerifyPassword derive password key =
      if derive password salt T M P hash.length = hash then none
      else some .hashNotEqualPassword := by
  unfold VerifyPassword
  rw [if_neg hp, if_neg hk, if_neg (by omega), hv, hps, hsalt, hhash]
  by_cases hc : derive password salt T M P hash.length = hash
  · have hctc : constantTimeCompare hash hash = 1 :=
      (constantTimeCompare_eq_one _ _).mpr rfl
    simp [hc, hctc]
  · have hctc : ¬ constantTimeCompare hash (derive password salt T M P hash.length) = 1 :=
      fun h1 => hc ((constantTimeCompare_eq_one _ _).mp h1).symm
    simp [hc, hctc]

/-! Claim theorems -/

/-- Claim C1: for every non-empty password and credential that passes all
earlier checks (6 segments, current version, parseable parameters, decodable
salt and hash), `VerifyPassword` succeeds iff the derivation primitive at
(password, decoded salt, parsed time, memory, threads, decoded-hash length)
equals the decoded stored hash — keyLen taken as the decoded hash's byte
length — and fails with `hashNotEqualPassword` on inequality. -/
theorem c1_verify_success_iff (derive : DeriveFn) (password key : List Nat) (M T P : Nat)
    (salt hash : List Nat)
    (hp : password ≠ []) (hk : key ≠ [])
    (h6 : (splitOnDollar key).length = 6)
    (hv : scanVersion ((splitOnDollar key).getD 2 []) = some (argon2Version : Int))
    (hps : scanParams ((splitOnDollar key).getD 3 []) = some (M, T, P))
    (hsalt : DecodeBase64String ((splitOnDollar key).getD 4 []) = some salt)
    (hhash : DecodeBase64String ((splitOnDollar key).getD 5 []) = some hash) :
    (VerifyPassword derive password key = none ↔
      derive password salt T M P hash.length = hash) ∧
    (derive password salt T M P hash.length ≠ hash →
      VerifyPassword derive password key = some .hashNotEqualPassword) := by
  rw [verifyPassword_eq derive password key M T P salt hash hp hk h6 hv hps hsalt hhash]
  by_cases hc : derive password salt T M P hash.length = hash
  · simp [hc]
  · simp [hc]

/-- Concrete instantiation of `c1_verify_success_iff`. -/
theorem c1_verify_success_iff_witness :
    ((ascii ("pw") ≠ ([] : List Nat)) ∧
      (ascii ("$argon2id$v=19$m=2,t=1,p=3$c2FsdA$AAAA") ≠ ([] : List Nat)) ∧
      (splitOnDollar (ascii ("$argon2id$v=19$m=2,t=1,p=3$c2FsdA$AAAA"))).length = 6 ∧
      scanVersion ((splitOnDollar (ascii ("$argon2id$v=19$m=2,t=1,p=3$c2FsdA$AAAA"))).getD
        2 []) = some (argon2Version : Int) ∧
      scanParams ((splitOnDollar (ascii ("$argon2id$v=19$m=2,t=1,p=3$c2FsdA$AAAA"))).getD
        3 []) = some (2, 1, 3) ∧
      DecodeBase64String ((splitOnDollar
        (ascii ("$argon2id$v=19$m=2,t=1,p=3$c2FsdA$AAAA"))).getD 4 []) =
        some (ascii ("salt")) ∧
      DecodeBase64String ((splitOnDollar
        (ascii ("$argon2id$v=19$m=2,t=1,p=3$c2FsdA$AAAA"))).getD 5 []) = some [0, 0, 0]) ∧
    ((VerifyPassword zeroDerive (ascii ("pw"))
        (ascii ("$argon2id$v=19$m=2,t=1,p=3$c2FsdA$AAAA")) = none ↔
      zeroDerive (ascii ("pw")) (ascii ("salt")) 1 2 3 ([0, 0, 0] : List Nat).length =
        [0, 0, 0]) ∧
    (zeroDerive (ascii ("pw")) (ascii ("salt")) 1 2 3 ([0, 0, 0] : List Nat).length ≠
        [0, 0, 0] →
      VerifyPassword zeroDerive (ascii ("pw"))
        (ascii ("$argon2id$v=19$m=2,t=1,p=3$c2FsdA$AAAA")) =
        some .hashNotEqualPassword)) :=
  ⟨⟨by decide, by decide, by decide, by decide, by decide, by decide, by decide⟩,
    c1_verify_success_iff zeroDerive (ascii ("pw"))
      (ascii ("$argon2id$v=19$m=2,t=1,p=3$c2FsdA$AAAA")) 2 1 3 (ascii ("salt")) [0, 0, 0]
      (by decide) (by decide) (by decide) (by decide) (by decide) (by decide) (by decide)⟩

/-- Claim C3: codec round-trip law — decoding an encoding returns the
original bytes; the empty byte sequence encodes to the empty string and
the empty string decodes to the empty byte sequence. -/
theorem c3_roundtrip :
    (∀ b : List Nat, (∀ x ∈ b, x < 256) →
      DecodeBase64String (EncodeToBase64String b) = some b) ∧
    EncodeToBase64String [] = [] ∧ DecodeBase64String [] = some [] :=
  ⟨decode_encode, rfl, rfl⟩

/-- Concrete instantiation of `c3_roundtrip`. -/
theorem c3_roundtrip_witness :
    (∀ x ∈ ([0, 255, 77, 1] : List Nat), x < 256) ∧
    DecodeBase64String (EncodeToBase64String [0, 255, 77, 1]) = some [0, 255, 77, 1] :=
  ⟨by decide, c3_roundtrip.1 [0, 255, 77, 1] (by decide)⟩

/-- Claim C8: a 6-segment credential whose version segment parses to an
integer different from `argon2.Version` fails with `argonVersionMismatch`
regardless of every later segment's content — in particular on the spec's
example with undecodable salt and hash segments. -/
theorem c8_version_mismatch :
    (∀ (derive : DeriveFn) (password key : List Nat) (w : Int), password ≠ [] → key ≠ [] →
      (splitOnDollar key).length = 6 →
      scanVersion ((splitOnDollar key).getD 2 []) = some w → w ≠ (argon2Version : Int) →
      VerifyPassword derive password key = some .argonVersionMismatch) ∧
    (∀ (derive : DeriveFn) (password : List Nat), password ≠ [] →
      VerifyPassword derive password (ascii ("$argon2id$v=1$m=65536,t=1,p=4$=$=")) =
        some .argonVersionMismatch) := by
  have part1 : ∀ (derive : DeriveFn) (password key : List Nat) (w : Int), password ≠ [] →
      key ≠ [] → (splitOnDollar key).length = 6 →
      scanVersion ((splitOnDollar key).getD 2 []) = some w → w ≠ (argon2Version : Int) →
      VerifyPassword derive password key = some .argonVersionMismatch := by
    intro derive password key w hp hk h6 hv hw
    unfold VerifyPassword
    rw [if_neg hp, if_neg hk, if_neg (by omega), hv]
    simp [hw]
  exact ⟨part1, fun derive password hp =>
    part1 derive password (ascii ("$argon2id$v=1$m=65536,t=1,p=4$=$=")) 1 hp
      (by decide) (by decide) (by decide) (by decide)⟩

/-- Concrete instantiation of `c8_version_mismatch`. -/
theorem c8_version_mismatch_witness :
    (ascii ("password") ≠ ([] : List Nat)) ∧
    VerifyPassword zeroDerive (ascii ("password"))
      (ascii ("$argon2id$v=1$m=65536,t=1,p=4$=$=")) = some .argonVersionMismatch :=
  ⟨by decide, c8_version_mismatch.2 zeroDerive (ascii ("password")) (by decide)⟩

/-- Claim C9: missing or ill-shaped mandatory input is rejected first, in a
fixed order, independently of the derivation primitive: empty password,
then empty salt / empty credential, then a `$`-split that does not yield
exactly 6 segments. -/
theorem c9_input_validation :
    (∀ (derive : DeriveFn) (salt : List Nat) (opts : Options),
      HashPassword derive [] salt opts = .error .passwordRequired) ∧
    (∀ (derive : DeriveFn) (password : List Nat) (opts : Options), password ≠ [] →
      HashPassword derive password [] opts = .error .saltRequired) ∧
    (∀ (derive : DeriveFn) (key : List Nat),
      VerifyPassword derive [] key = some .passwordRequired) ∧
    (∀ (derive : DeriveFn) (password : List Nat), password ≠ [] →
      VerifyPassword derive password [] = some .argon2KeyRequired) ∧
    (∀ (derive : DeriveFn) (password key : List Nat), password ≠ [] → key ≠ [] →
      (splitOnDollar key).length ≠ 6 →
      VerifyPassword derive password key = some .invalidKeyLength) := by
  refine ⟨?_, ?_, ?_, ?_, ?_⟩
  · intro derive salt opts; simp [HashPassword]
  · intro derive password opts hp; simp [HashPassword, hp]
  · intro derive key; simp [VerifyPassword]
  · intro derive password hp; simp [VerifyPassword, hp]
  · intro derive password key hp hk h6
    unfold VerifyPassword
    rw [if_neg hp, if_neg hk, if_pos h6]

/-- Concrete instantiation of `c9_input_validation`, including the spec's
`"$argon2id$v=19"` (3 segments) example. -/
theorem c9_input_validation_witness :
    (ascii ("password") ≠ ([] : List Nat)) ∧
    (ascii ("$argon2id$v=19") ≠ ([] : List Nat)) ∧
    (splitOnDollar (ascii ("$argon2id$v=19"))).length ≠ 6 ∧
    VerifyPassword zeroDerive (ascii ("password")) (ascii ("$argon2id$v=19")) =
      some .invalidKeyLength :=
  ⟨by decide, by decide, by decide,
    c9_input_validation.2.2.2.2 zeroDerive (ascii ("password")) (ascii ("$argon2id$v=19"))
      (by decide) (by decide) (by decide)⟩

/-- Shared segment analysis for a freshly formatted credential: its split,
and the scan/decode results of each segment. -/
theorem credential_segments (derive : DeriveFn) (password salt : List Nat) (opts : Options)
    (hsb : ∀ x ∈ salt, x < 256)
    (hm : opts.memory < 2 ^ 32) (ht : opts.time < 2 ^ 32) (hth : opts.threads < 2 ^ 8)
    (hhb : ∀ x ∈ derive password salt opts.time opts.memory opts.threads opts.keyLen,
      x < 256) :
    splitOnDollar (credentialFormat opts.memory opts.time opts.threads
        (EncodeToBase64String salt) (EncodeToBase64String
          (derive password salt opts.time opts.memory opts.threads opts.keyLen))) =
      [[], ascii ("argon2id"), versionSegment,
        paramSegment opts.memory opts.time opts.threads, EncodeToBase64String salt,
        EncodeToBase64String
          (derive password salt opts.time opts.memory opts.threads opts.keyLen)] ∧
    scanVersion versionSegment = some (argon2Version : Int) ∧
    scanParams (paramSegment opts.memory opts.time opts.threads) =
      some (opts.memory, opts.time, opts.threads) ∧
    DecodeBase64String (EncodeToBase64String salt) = some salt ∧
    DecodeBase64String (EncodeToBase64String
        (derive password salt opts.time opts.memory opts.threads opts.keyLen)) =
      some (derive password salt opts.time opts.memory opts.threads opts.keyLen) := by
  refine ⟨?_, scanVersionSegment, scanParamSegment _ _ _ hm ht hth,
    decode_encode salt hsb, decode_encode _ hhb⟩
  have hS : 36 ∉ EncodeToBase64String salt :=
    fun hm36 => (encodeGroups_chars salt hsb 36 hm36).1 rfl
  have hH : splitOnDollar (EncodeToBase64String
      (derive password salt opts.time opts.memory opts.threads opts.keyLen)) =
      [EncodeToBase64String
        (derive password salt opts.time opts.memory opts.threads opts.keyLen)] :=
    splitOnDollar_no36 _ (fun hm36 => (encodeGroups_chars _ hhb 36 hm36).1 rfl)
  unfold credentialFormat
  rw [splitOnDollar_credentialFormat _ _ _ _ _ hS, hH]

/-- Claim C2: hash-then-verify round trip.  For any non-empty password and
salt and any `Options` within the Go integer bounds, assuming the
derivation primitive returns exactly `keyLen` bytes, the credential
produced by `HashPassword` splits into exactly 6 segments, its version and
parameter fields parse back to the values used at hash time, and
`VerifyPassword` succeeds on it. -/
theorem c2_hash_verify_roundtrip (derive : DeriveFn) (password salt : List Nat)
    (opts : Options)
    (hp : password ≠ []) (hs : salt ≠ [])
    (hsb : ∀ x ∈ salt, x < 256)
    (hm : opts.memory < 2 ^ 32) (ht : opts.time < 2 ^ 32) (hth : opts.threads < 2 ^ 8)
    (hlen : (derive password salt opts.time opts.memory opts.threads opts.keyLen).length =
      opts.keyLen)
    (hhb : ∀ x ∈ derive password salt opts.time opts.memory opts.threads opts.keyLen,
      x < 256) :
    ∃ cred, HashPassword derive password salt opts = .ok cred ∧
      (splitOnDollar cred).length = 6 ∧
      scanVersion ((splitOnDollar cred).getD 2 []) = some (argon2Version : Int) ∧
      scanParams ((splitOnDollar cred).getD 3 []) =
        some (opts.memory, opts.time, opts.threads) ∧
      VerifyPassword derive password cred = none := by
  obtain ⟨hsplit, hv, hps, hdsalt, hdhash⟩ :=
    credential_segments derive password salt opts hsb hm ht hth hhb
  refine ⟨credentialFormat opts.memory opts.time opts.threads (EncodeToBase64String salt)
    (EncodeToBase64String (derive password salt opts.time opts.memory opts.threads
      opts.keyLen)), ?_, ?_, ?_, ?_, ?_⟩
  · unfold HashPassword
    rw [if_neg hp, if_neg hs]
  · rw [hsplit]; rfl
  · rw [hsplit]; exact hv
  · rw [hsplit]; exact hps
  · rw [verifyPassword_eq derive password _ opts.memory opts.time opts.threads salt
      (derive password salt opts.time opts.memory opts.threads opts.keyLen)
      hp (by simp [credentialFormat]) (by rw [hsplit]; rfl)
      (by rw [hsplit]; exact hv) (by rw [hsplit]; exact hps)
      (by rw [hsplit]; exact hdsalt) (by rw [hsplit]; exact hdhash)]
    rw [if_pos (by rw [hlen])]

/-- Concrete instantiation of `c2_hash_verify_roundtrip`. -/
theorem c2_hash_verify_roundtrip_witness :
    ((ascii ("pw") ≠ ([] : List Nat)) ∧ (ascii ("salt") ≠ ([] : List Nat)) ∧
      (∀ x ∈ ascii ("salt"), x < 256) ∧
      (2 : Nat) < 2 ^ 32 ∧ (1 : Nat) < 2 ^ 32 ∧ (3 : Nat) < 2 ^ 8 ∧
      (zeroDerive (ascii ("pw")) (ascii ("salt")) 1 2 3 4).length = 4 ∧
      (∀ x ∈ zeroDerive (ascii ("pw")) (ascii ("salt")) 1 2 3 4, x < 256)) ∧
    (∃ cred, HashPassword zeroDerive (ascii ("pw")) (ascii ("salt")) ⟨1, 2, 3, 4⟩ =
        .ok cred ∧
      (splitOnDollar cred).length = 6 ∧
      scanVersion ((splitOnDollar cred).getD 2 []) = some (argon2Version : Int) ∧
      scanParams ((splitOnDollar cred).getD 3 []) = some (2, 1, 3) ∧
      VerifyPassword zeroDerive (ascii ("pw")) cred = none) :=
  ⟨⟨by decide, by decide, by decide, by decide, by decide, by decide, by decide, by decide⟩,
    c2_hash_verify_roundtrip zeroDerive (ascii ("pw")) (ascii ("salt")) ⟨1, 2, 3, 4⟩
      (by decide) (by decide) (by decide) (by decide) (by decide) (by decide) (by decide)
      (by decide)⟩

/-- Claim C4: `HashPassword` returns the six-segment string
`$argon2id$v=<version>$m=<memory>,t=<time>,p=<threads>$<b64 salt>$<b64 hash>`
with the parameter fields in the fixed order m, t, p and both byte fields
encoded by the URL-safe unpadded codec; at the spec's documented inputs it
yields exactly the documented string (derivation primitive modelled from
the spec's test vector). -/
theorem c4_format :
    (∀ (derive : DeriveFn) (password salt : List Nat) (opts : Options), password ≠ [] →
      salt ≠ [] → (∀ x ∈ salt, x < 256) →
      opts.memory < 2 ^ 32 → opts.time < 2 ^ 32 → opts.threads < 2 ^ 8 →
      (∀ x ∈ derive password salt opts.time opts.memory opts.threads opts.keyLen,
        x < 256) →
      ∃ cred, HashPassword derive password salt opts = .ok cred ∧
        splitOnDollar cred =
          [[], ascii ("argon2id"), versionSegment,
            paramSegment opts.memory opts.time opts.threads, EncodeToBase64String salt,
            EncodeToBase64String
              (derive password salt opts.time opts.memory opts.threads opts.keyLen)]) ∧
    HashPassword argon2IDKeySpec (ascii ("password")) (ascii ("salt")) ⟨1, 65536, 4, 32⟩ =
      .ok (ascii
        ("$argon2id$v=19$m=65536,t=1,p=4$c2FsdA$OWwmnKFemKE2ILjM60j1so1oRXDFJYqvOiYlZTByvuU")) := by
  constructor
  · intro derive password salt opts hp hs hsb hm ht hth hhb
    obtain ⟨hsplit, -, -, -, -⟩ :=
      credential_segments derive password salt opts hsb hm ht hth hhb
    refine ⟨credentialFormat opts.memory opts.time opts.threads (EncodeToBase64String salt)
      (EncodeToBase64String (derive password salt opts.time opts.memory opts.threads
        opts.keyLen)), ?_, hsplit⟩
    unfold HashPassword
    rw [if_neg hp, if_neg hs]
  · show Except.ok _ = _
    exact congrArg Except.ok (by decide)

/-- Concrete instantiation of the universally quantified part of
`c4_format`. -/
theorem c4_format_witness :
    ((ascii ("ab") ≠ ([] : List Nat)) ∧ (ascii ("cd") ≠ ([] : List Nat)) ∧
      (∀ x ∈ ascii ("cd"), x < 256) ∧
      (7 : Nat) < 2 ^ 32 ∧ (5 : Nat) < 2 ^ 32 ∧ (2 : Nat) < 2 ^ 8 ∧
      (∀ x ∈ zeroDerive (ascii ("ab")) (ascii ("cd")) 5 7 2 6, x < 256)) ∧
    (∃ cred, HashPassword zeroDerive (ascii ("ab")) (ascii ("cd")) ⟨5, 7, 2, 6⟩ =
        .ok cred ∧
      splitOnDollar cred =
        [[], ascii ("argon2id"), versionSegment, paramSegment 7 5 2,
          EncodeToBase64String (ascii ("cd")),
          EncodeToBase64String (zeroDerive (ascii ("ab")) (ascii ("cd")) 5 7 2 6)]) :=
  ⟨⟨by decide, by decide, by decide, by decide, by decide, by decide, by decide⟩,
    c4_format.1 zeroDerive (ascii ("ab")) (ascii ("cd")) ⟨5, 7, 2, 6⟩
      (by decide) (by decide) (by decide) (by decide) (by decide) (by decide) (by decide)⟩

/-- Claim C6 (amended): version or parameter segments on which the
`Sscanf`-style scan fails (wrong literal prefix, missing digits, sign on an
unsigned field, out-of-range value) make `VerifyPassword` fail with the
propagated parse error; however the scan does not require the segment to be
fully consumed, so trailing characters after the last matched integer are
silently accepted. -/
theorem c6_parse_error_propagation :
    (∀ (derive : DeriveFn) (password key : List Nat), password ≠ [] → key ≠ [] →
      (splitOnDollar key).length = 6 →
      scanVersion ((splitOnDollar key).getD 2 []) = none →
      VerifyPassword derive password key = some .parseErr) ∧
    (∀ (derive : DeriveFn) (password key : List Nat), password ≠ [] → key ≠ [] →
      (splitOnDollar key).length = 6 →
      scanVersion ((splitOnDollar key).getD 2 []) = some (argon2Version : Int) →
      scanParams ((splitOnDollar key).getD 3 []) = none →
      VerifyPassword derive password key = some .parseErr) ∧
    scanVersion (ascii ("v=19junk")) = some (argon2Version : Int) ∧
    scanParams (ascii ("m=65536,t=1,p=4junk")) = some (65536, 1, 4) := by
  refine ⟨?_, ?_, by decide, by decide⟩
  · intro derive password key hp hk h6 hv
    unfold VerifyPassword
    rw [if_neg hp, if_neg hk, if_neg (by omega), hv]
  · intro derive password key hp hk h6 hv hps
    unfold VerifyPassword
    rw [if_neg hp, if_neg hk, if_neg (by omega), hv, hps]
    simp

/-- Concrete instantiation of `c6_parse_error_propagation`. -/
theorem c6_parse_error_propagation_witness :
    (ascii ("pw") ≠ ([] : List Nat)) ∧ (ascii ("$argon2id$vv$m$a$b") ≠ ([] : List Nat)) ∧
    (splitOnDollar (ascii ("$argon2id$vv$m$a$b"))).length = 6 ∧
    scanVersion ((splitOnDollar (ascii ("$argon2id$vv$m$a$b"))).getD 2 []) = none ∧
    VerifyPassword zeroDerive (ascii ("pw")) (ascii ("$argon2id$vv$m$a$b")) =
      some .parseErr :=
  ⟨by decide, by decide, by decide, by decide,
    c6_parse_error_propagation.1 zeroDerive (ascii ("pw")) (ascii ("$argon2id$vv$m$a$b"))
      (by decide) (by decide) (by decide) (by decide)⟩

/-- Counterexample to claim C6 as stated: the version segment `v=19x` is not
of the form `v=<int>` — it has trailing characters after the integer — yet
`VerifyPassword` does not fail with a parse error: `fmt.Sscanf` stops once
the format is exhausted, the version scans as 19, and verification proceeds
all the way to success. -/
theorem c6_counterexample :
    VerifyPassword zeroDerive (ascii ("password"))
      (ascii ("$argon2id$v=19x$m=65536,t=1,p=4$c2FsdA$AAAA")) = none := by decide

/-- Claim C10: `VerifyPassword` never inspects the first two segments beyond
counting them — replacing them by arbitrary `$`-free byte strings leaves
the result unchanged, and a credential with a non-empty leading segment and
a wrong algorithm name can verify successfully. -/
theorem c10_leading_segments_ignored :
    (∀ (derive : DeriveFn) (password a b tail : List Nat), 36 ∉ a → 36 ∉ b →
      VerifyPassword derive password (a ++ 36 :: (b ++ 36 :: tail)) =
        VerifyPassword derive password (36 :: (ascii ("argon2id") ++ 36 :: tail))) ∧
    VerifyPassword zeroDerive (ascii ("password"))
      (ascii ("x$other$v=19$m=65536,t=1,p=4$c2FsdA$AAAA")) = none := by
  refine ⟨?_, by decide⟩
  intro derive password a b tail ha hb
  by_cases hp : password = []
  · simp [VerifyPassword, hp]
  · have hk1 : a ++ 36 :: (b ++ 36 :: tail) ≠ [] := by simp
    have hk2 : (36 :: (ascii ("argon2id") ++ 36 :: tail) : List Nat) ≠ [] := by simp
    have hs1 : splitOnDollar (a ++ 36 :: (b ++ 36 :: tail)) =
        a :: b :: splitOnDollar tail := by
      rw [splitOnDollar_append a ha, splitOnDollar_append b hb]
    have hs2 : splitOnDollar (36 :: (ascii ("argon2id") ++ 36 :: tail)) =
        [] :: ascii ("argon2id") :: splitOnDollar tail := by
      have h0 : splitOnDollar (36 :: (ascii ("argon2id") ++ 36 :: tail)) =
          [] :: splitOnDollar (ascii ("argon2id") ++ 36 :: tail) := by
        simp [splitOnDollar]
      rw [h0, splitOnDollar_append _ (by decide)]
    unfold VerifyPassword
    rw [if_neg hp, if_neg hp, if_neg hk1, if_neg hk2, hs1, hs2]
    generalize splitOnDollar tail = l
    rcases l with _ | ⟨s2, l⟩
    · rfl
    rcases l with _ | ⟨s3, l⟩
    · rfl
    rcases l with _ | ⟨s4, l⟩
    · rfl
    rcases l with _ | ⟨s5, l⟩
    · rfl
    rcases l with _ | ⟨s6, l⟩
    · rfl
    · have hL1 : (a :: b :: s2 :: s3 :: s4 :: s5 :: s6 :: l).length ≠ 6 := by
        simp
      have hL2 : (([] : List Nat) :: ascii ("argon2id") :: s2 :: s3 :: s4 :: s5 :: s6 ::
          l).length ≠ 6 := by
        simp
      rw [if_pos hL1, if_pos hL2]

/-- Concrete instantiation of `c10_leading_segments_ignored`. -/
theorem c10_leading_segments_ignored_witness :
    ((36 : Nat) ∉ ascii ("x") ∧ (36 : Nat) ∉ ascii ("other")) ∧
    VerifyPassword zeroDerive (ascii ("pw"))
        (ascii ("x") ++ 36 :: (ascii ("other") ++ 36 :: ascii ("v=19$m=2,t=1,p=3$$"))) =
      VerifyPassword zeroDerive (ascii ("pw"))
        (36 :: (ascii ("argon2id") ++ 36 :: ascii ("v=19$m=2,t=1,p=3$$"))) :=
  ⟨⟨by decide, by decide⟩,
    c10_leading_segments_ignored.1 zeroDerive (ascii ("pw")) (ascii ("x")) (ascii ("other"))
      (ascii ("v=19$m=2,t=1,p=3$$")) (by decide) (by decide)⟩

theorem decode_snoc_crlf (H : List Nat) (c : Nat) (hc : c = 10 ∨ c = 13) :
    DecodeBase64String (H ++ [c]) = DecodeBase64String H := by
  unfold DecodeBase64String
  rw [List.filter_append]
  rcases hc with rfl | rfl <;> simp

theorem decode_encode_snoc (b : List Nat) (c : Nat) (hb : ∀ x ∈ b, x < 256)
    (h10 : c ≠ 10) (h13 : c ≠ 13) :
    DecodeBase64String (EncodeToBase64String b ++ [c]) =
      if b.length % 3 = 0 then none
      else (b64Index c).map fun ic => b ++ [if b.length % 3 = 1 then ic / 4 else ic] := by
  unfold DecodeBase64String EncodeToBase64String
  rw [List.filter_append, filter_no_crlf _ (fun x hx => (encodeGroups_chars b hb x hx).2),
    filter_no_crlf [c] (by intro x hx; simp at hx; subst hx; exact ⟨h10, h13⟩),
    decode_enc_snoc b c hb]

/-- Evaluation of `VerifyPassword` when everything up to the hash segment
passes but the hash segment fails to decode. -/
theorem verifyPassword_hash_decodeErr (derive : DeriveFn) (password key : List Nat)
    (M T P : Nat) (salt : List Nat)
    (hp : password ≠ []) (hk : key ≠ [])
    (h6 : (splitOnDollar key).length = 6)
    (hv : scanVersion ((splitOnDollar key).getD 2 []) = some (argon2Version : Int))
    (hps : scanParams ((splitOnDollar key).getD 3 []) = some (M, T, P))
    (hsalt : DecodeBase64String ((splitOnDollar key).getD 4 []) = some salt)
    (hhash : DecodeBase64String ((splitOnDollar key).getD 5 []) = none) :
    VerifyPassword derive password key = some .decodeErr := by
  unfold VerifyPassword
  rw [if_neg hp, if_neg hk, if_neg (by omega), hv, hps, hsalt, hhash]
  simp

/-- Claim C5 (amended): appending one byte to a freshly produced credential
fails with `invalidKeyLength` when the byte is `$`, but not always with one
of the two claimed errors: a CR or LF byte is skipped by Go's base64
decoder and verification still succeeds; a byte inside the base64 alphabet
keeps the hash segment decodable whenever the encoded hash length was not a
multiple of four (`keyLen % 3 ≠ 0`), so the outcome is then the final hash
comparison — success or `hashNotEqualPassword`; only a byte that is
neither `$`, CR, LF nor in the alphabet, or an alphabet byte after a
4-multiple-length segment, gives `decodeErr`. -/
theorem c5_append_one_char (derive : DeriveFn) (password salt : List Nat) (opts : Options)
    (cred : List Nat) (c : Nat)
    (hp : password ≠ []) (hs : salt ≠ [])
    (hsb : ∀ x ∈ salt, x < 256)
    (hm : opts.memory < 2 ^ 32) (ht : opts.time < 2 ^ 32) (hth : opts.threads < 2 ^ 8)
    (hlen : (derive password salt opts.time opts.memory opts.threads opts.keyLen).length =
      opts.keyLen)
    (hhb : ∀ x ∈ derive password salt opts.time opts.memory opts.threads opts.keyLen,
      x < 256)
    (hcred : HashPassword derive password salt opts = .ok cred) :
    (c = 36 → VerifyPassword derive password (cred ++ [c]) = some .invalidKeyLength) ∧
    ((c = 10 ∨ c = 13) → VerifyPassword derive password (cred ++ [c]) = none) ∧
    (c ≠ 36 → c ≠ 10 → c ≠ 13 → b64Index c = none →
      VerifyPassword derive password (cred ++ [c]) = some .decodeErr) ∧
    (b64Index c ≠ none → opts.keyLen % 3 = 0 →
      VerifyPassword derive password (cred ++ [c]) = some .decodeErr) ∧
    (b64Index c ≠ none → opts.keyLen % 3 ≠ 0 →
      VerifyPassword derive password (cred ++ [c]) = none ∨
      VerifyPassword derive password (cred ++ [c]) = some .hashNotEqualPassword) := by
  have hok : HashPassword derive password salt opts = .ok (credentialFormat opts.memory
      opts.time opts.threads (EncodeToBase64String salt) (EncodeToBase64String
        (derive password salt opts.time opts.memory opts.threads opts.keyLen))) := by
    unfold HashPassword
    rw [if_neg hp, if_neg hs]
  rw [hok] at hcred
  have hcred' := Except.ok.inj hcred
  subst hcred'
  have hS36 : 36 ∉ EncodeToBase64String salt :=
    fun h => (encodeGroups_chars salt hsb 36 h).1 rfl
  have hH36 : 36 ∉ EncodeToBase64String
      (derive password salt opts.time opts.memory opts.threads opts.keyLen) :=
    fun h => (encodeGroups_chars _ hhb 36 h).1 rfl
  have hkey : ∀ c' : Nat, credentialFormat opts.memory opts.time opts.threads
      (EncodeToBase64String salt) (EncodeToBase64String
        (derive password salt opts.time opts.memory opts.threads opts.keyLen)) ++ [c'] ≠
      [] := by
    intro c'
    simp [credentialFormat]
  have hsplitc : ∀ c' : Nat, splitOnDollar (credentialFormat opts.memory opts.time
      opts.threads (EncodeToBase64String salt) (EncodeToBase64String
        (derive password salt opts.time opts.memory opts.threads opts.keyLen)) ++ [c']) =
      [] :: ascii ("argon2id") :: versionSegment ::
        paramSegment opts.memory opts.time opts.threads :: EncodeToBase64String salt ::
        splitOnDollar (EncodeToBase64String
          (derive password salt opts.time opts.memory opts.threads opts.keyLen) ++ [c']) := by
    intro c'
    have hshape : credentialFormat opts.memory opts.time opts.threads
        (EncodeToBase64String salt) (EncodeToBase64String
          (derive password salt opts.time opts.memory opts.threads opts.keyLen)) ++ [c'] =
        36 :: ascii ("argon2id") ++ 36 :: ascii ("v=") ++ toDecimal argon2Version ++
        36 :: ascii ("m=") ++ toDecimal opts.memory ++ 44 :: ascii ("t=") ++
        toDecimal opts.time ++ 44 :: ascii ("p=") ++ toDecimal opts.threads ++
        36 :: EncodeToBase64String salt ++ 36 :: (EncodeToBase64String
          (derive password salt opts.time opts.memory opts.threads opts.keyLen) ++ [c']) := by
      simp [credentialFormat, List.append_assoc]
    rw [hshape]
    exact splitOnDollar_credentialFormat _ _ _ _ _ hS36
  refine ⟨?_, ?_, ?_, ?_, ?_⟩
  · rintro rfl
    have h36 : splitOnDollar (EncodeToBase64String
        (derive password salt opts.time opts.memory opts.threads opts.keyLen) ++ [36]) =
        [EncodeToBase64String
          (derive password salt opts.time opts.memory opts.threads opts.keyLen), []] := by
      rw [show (EncodeToBase64String (derive password salt opts.time opts.memory
          opts.threads opts.keyLen) ++ [36] : List Nat) = EncodeToBase64String
          (derive password salt opts.time opts.memory opts.threads opts.keyLen) ++
          36 :: [] from rfl, splitOnDollar_append _ hH36]
      rfl
    unfold VerifyPassword
    rw [if_neg hp, if_neg (hkey 36), hsplitc 36, h36, if_pos (by simp)]
  · intro hc
    have hc36 : c ≠ 36 := by rcases hc with rfl | rfl <;> omega
    have hsp : splitOnDollar (EncodeToBase64String
        (derive password salt opts.time opts.memory opts.threads opts.keyLen) ++ [c]) =
        [EncodeToBase64String
          (derive password salt opts.time opts.memory opts.threads opts.keyLen) ++ [c]] := by
      refine splitOnDollar_no36 _ ?_
      intro hmem
      rcases List.mem_append.mp hmem with h | h
      · exact hH36 h
      · simp at h; omega
    have hdec : DecodeBase64String (EncodeToBase64String
        (derive password salt opts.time opts.memory opts.threads opts.keyLen) ++ [c]) =
        some (derive password salt opts.time opts.memory opts.threads opts.keyLen) := by
      rw [decode_snoc_crlf _ c hc]
      exact decode_encode _ hhb
    rw [verifyPassword_eq derive password _ opts.memory opts.time opts.threads salt
      (derive password salt opts.time opts.memory opts.threads opts.keyLen)
      hp (hkey c) (by rw [hsplitc c, hsp]; rfl)
      (by rw [hsplitc c, hsp]; exact scanVersionSegment)
      (by rw [hsplitc c, hsp]; exact scanParamSegment _ _ _ hm ht hth)
      (by rw [hsplitc c, hsp]; exact decode_encode salt hsb)
      (by rw [hsplitc c, hsp]; exact hdec)]
    rw [if_pos (by rw [hlen])]
  · intro h36 h10 h13 hbi
    have hsp : splitOnDollar (EncodeToBase64String
        (derive password salt opts.time opts.memory opts.threads opts.keyLen) ++ [c]) =
        [EncodeToBase64String
          (derive password salt opts.time opts.memory opts.threads opts.keyLen) ++ [c]] := by
      refine splitOnDollar_no36 _ ?_
      intro hmem
      rcases List.mem_append.mp hmem with h | h
      · exact hH36 h
      · simp at h; omega
    have hdec : DecodeBase64String (EncodeToBase64String
        (derive password salt opts.time opts.memory opts.threads opts.keyLen) ++ [c]) =
        none := by
      rw [decode_encode_snoc _ c hhb h10 h13]
      by_cases h0 : (derive password salt opts.time opts.memory opts.threads
          opts.keyLen).length % 3 = 0
      · rw [if_pos h0]
      · rw [if_neg h0, hbi]
        rfl
    exact verifyPassword_hash_decodeErr derive password _ opts.memory opts.time
      opts.threads salt hp (hkey c) (by rw [hsplitc c, hsp]; rfl)
      (by rw [hsplitc c, hsp]; exact scanVersionSegment)
      (by rw [hsplitc c, hsp]; exact scanParamSegment _ _ _ hm ht hth)
      (by rw [hsplitc c, hsp]; exact decode_encode salt hsb)
      (by rw [hsplitc c, hsp]; exact hdec)
  · intro hbi h0
    obtain ⟨ic, hic⟩ := Option.ne_none_iff_exists'.mp hbi
    obtain ⟨h36, h10, h13⟩ := b64Index_some_ne c ic hic
    have hsp : splitOnDollar (EncodeToBase64String
        (derive password salt opts.time opts.memory opts.threads opts.keyLen) ++ [c]) =
        [EncodeToBase64String
          (derive password salt opts.time opts.memory opts.threads opts.keyLen) ++ [c]] := by
      refine splitOnDollar_no36 _ ?_
      intro hmem
      rcases List.mem_append.mp hmem with h | h
      · exact hH36 h
      · simp at h; omega
    have hdec : DecodeBase64String (EncodeToBase64String
        (derive password salt opts.time opts.memory opts.threads opts.keyLen) ++ [c]) =
        none := by
      rw [decode_encode_snoc _ c hhb h10 h13, hlen, if_pos h0]
    exact verifyPassword_hash_decodeErr derive password _ opts.memory opts.time
      opts.threads salt hp (hkey c) (by rw [hsplitc c, hsp]; rfl)
      (by rw [hsplitc c, hsp]; exact scanVersionSegment)
      (by rw [hsplitc c, hsp]; exact scanParamSegment _ _ _ hm ht hth)
      (by rw [hsplitc c, hsp]; exact decode_encode salt hsb)
      (by rw [hsplitc c, hsp]; exact hdec)
  · intro hbi h0
    obtain ⟨ic, hic⟩ := Option.ne_none_iff_exists'.mp hbi
    obtain ⟨h36, h10, h13⟩ := b64Index_some_ne c ic hic
    have hsp : splitOnDollar (EncodeToBase64String
        (derive password salt opts.time opts.memory opts.threads opts.keyLen) ++ [c]) =
        [EncodeToBase64String
          (derive password salt opts.time opts.memory opts.threads opts.keyLen) ++ [c]] := by
      refine splitOnDollar_no36 _ ?_
      intro hmem
      rcases List.mem_append.mp hmem with h | h
      · exact hH36 h
      · simp at h; omega
    have hdec : DecodeBase64String (EncodeToBase64String
        (derive password salt opts.time opts.memory opts.threads opts.keyLen) ++ [c]) =
        some (derive password salt opts.time opts.memory opts.threads opts.keyLen ++
          [if opts.keyLen % 3 = 1 then ic / 4 else ic]) := by
      rw [decode_encode_snoc _ c hhb h10 h13, hlen, if_neg h0, hic]
      rfl
    rw [verifyPassword_eq derive password _ opts.memory opts.time opts.threads salt
      (derive password salt opts.time opts.memory opts.threads opts.keyLen ++
        [if opts.keyLen % 3 = 1 then ic / 4 else ic])
      hp (hkey c) (by rw [hsplitc c, hsp]; rfl)
      (by rw [hsplitc c, hsp]; exact scanVersionSegment)
      (by rw [hsplitc c, hsp]; exact scanParamSegment _ _ _ hm ht hth)
      (by rw [hsplitc c, hsp]; exact decode_encode salt hsb)
      (by rw [hsplitc c, hsp]; exact hdec)]
    by_cases hcc : derive password salt opts.time opts.memory opts.threads
        (derive password salt opts.time opts.memory opts.threads opts.keyLen ++
          [if opts.keyLen % 3 = 1 then ic / 4 else ic]).length =
        derive password salt opts.time opts.memory opts.threads opts.keyLen ++
          [if opts.keyLen % 3 = 1 then ic / 4 else ic]
    · left; rw [if_pos hcc]
    · right; rw [if_neg hcc]

/-- Counterexample to claim C5 as stated: appending the single byte `\n`
(10) to a credential produced by `HashPassword` does not make
`VerifyPassword` fail with `invalidKeyLength` or `decodeErr` — Go's base64
decoder skips CR/LF, so verification succeeds outright. -/
theorem c5_counterexample :
    HashPassword zeroDerive (ascii ("pw")) (ascii ("salt")) ⟨1, 2, 3, 4⟩ =
      .ok (ascii ("$argon2id$v=19$m=2,t=1,p=3$c2FsdA$AAAAAA")) ∧
    VerifyPassword zeroDerive (ascii ("pw"))
      (ascii ("$argon2id$v=19$m=2,t=1,p=3$c2FsdA$AAAAAA") ++ [10]) = none := by
  constructor
  · show Except.ok _ = _
    exact congrArg Except.ok (by decide)
  · decide

/-- Concrete instantiation of `c5_append_one_char`. -/
theorem c5_append_one_char_witness :
    ((ascii ("pw") ≠ ([] : List Nat)) ∧ (ascii ("salt") ≠ ([] : List Nat)) ∧
      (∀ x ∈ ascii ("salt"), x < 256) ∧
      (2 : Nat) < 2 ^ 32 ∧ (1 : Nat) < 2 ^ 32 ∧ (3 : Nat) < 2 ^ 8 ∧
      (zeroDerive (ascii ("pw")) (ascii ("salt")) 1 2 3 4).length = 4 ∧
      (∀ x ∈ zeroDerive (ascii ("pw")) (ascii ("salt")) 1 2 3 4, x < 256) ∧
      HashPassword zeroDerive (ascii ("pw")) (ascii ("salt")) ⟨1, 2, 3, 4⟩ =
        .ok (ascii ("$argon2id$v=19$m=2,t=1,p=3$c2FsdA$AAAAAA"))) ∧
    ((36 : Nat) = 36 →
      VerifyPassword zeroDerive (ascii ("pw"))
        (ascii ("$argon2id$v=19$m=2,t=1,p=3$c2FsdA$AAAAAA") ++ [36]) =
        some .invalidKeyLength) :=
  ⟨⟨by decide, by decide, by decide, by decide, by decide, by decide, by decide, by decide,
      by show Except.ok _ = _; exact congrArg Except.ok (by decide)⟩,
    (c5_append_one_char zeroDerive (ascii ("pw")) (ascii ("salt")) ⟨1, 2, 3, 4⟩
      (ascii ("$argon2id$v=19$m=2,t=1,p=3$c2FsdA$AAAAAA")) 36
      (by decide) (by decide) (by decide) (by decide) (by decide) (by decide) (by decide)
      (by decide)
      (by show Except.ok _ = _; exact congrArg Except.ok (by decide))).1⟩

end Argon2id
